import Mathlib

/-!
Verification of the fuzzy duplicate-detection core of the quote-me admin
handler (src/aws/lambda/admin_handler.py): text normalization, similarity
scoring, the duplicate classifier, and the two scan/handler paths
(handle_create_quote and handle_check_duplicate).

Python strings are modelled as `List Char`.  Python float arithmetic is
modelled with exact rationals (`ℚ`), built with `mkRat` so that all values
kernel-evaluate; the thresholds 0.90 / 0.85 / 0.95 are the exact rationals
9/10, 17/20, 19/20.  Fallible storage scans are modelled as
`Except Str (List (List Record))`: either a scan failure or the full
paginated sequence of record pages.

A parsing note on the source, reflected faithfully below: in
`normalize_text` the two "smart quote" replacements are literally
`.replace('"', '"')` twice (both arguments are the ASCII double quote, a
no-op), and the "smart apostrophes" line parses in Python as a single call
whose first argument is a triple-quoted string: the line
`.replace(''', "'").replace(''', "'")` is one call replacing the 15-char
literal given by `apostropheArtifact` below with a single ASCII apostrophe.
-/

/-- Python strings are modelled as lists of characters. -/
abbrev Str := List Char

/-- The characters Python 3 treats as whitespace, both in `str.strip()` and
in the regex `\s` for `str` patterns (CPython's `Py_UNICODE_ISSPACE` set,
which both use): tab through carriage return (9-13), the separator controls
and space (28-32), next line (133), no-break space (160), ogham space mark
(5760), the spaces U+2000-U+200A, line and paragraph separators (8232,
8233), narrow no-break space (8239), medium mathematical space (8287) and
ideographic space (12288). -/
def pyIsSpace (c : Char) : Bool :=
  (9 ≤ c.toNat && c.toNat ≤ 13) ||
  (28 ≤ c.toNat && c.toNat ≤ 32) ||
  c.toNat == 133 || c.toNat == 160 || c.toNat == 5760 ||
  (8192 ≤ c.toNat && c.toNat ≤ 8202) ||
  c.toNat == 8232 || c.toNat == 8233 || c.toNat == 8239 ||
  c.toNat == 8287 || c.toNat == 12288

/-- ASCII double quote, written via its code point. -/
def dq : Char := Char.ofNat 34

/-- ASCII apostrophe, written via its code point. -/
def apos : Char := Char.ofNat 39

/-- Python `str.lower()` restricted to ASCII letters: uppercase code points
65..90 are shifted by 32, everything else is unchanged.  (Unicode `lower()`
also lowers non-ASCII letters; that mapping never produces or removes a
whitespace character, a period, or any character of `apostropheArtifact`,
and it is idempotent, which is all the analysis of `normalize_text` below
depends on, so the restriction does not change any verdict.) -/
def lowerChar (c : Char) : Char :=
  if 65 ≤ c.toNat ∧ c.toNat ≤ 90 then Char.ofNat (c.toNat + 32) else c

/-- Drop trailing characters satisfying `p` (Python `rstrip`). -/
def pyRstripWhile (p : Char → Bool) (s : Str) : Str :=
  (s.reverse.dropWhile p).reverse

/-- Python `str.strip()`: drop leading and trailing whitespace. -/
def pyStrip (s : Str) : Str :=
  pyRstripWhile pyIsSpace (s.dropWhile pyIsSpace)

/-- Python `str.replace(old, rep)` (fuel-indexed so that it is structural;
`old` is matched left to right, non-overlapping, and scanning resumes after
the inserted replacement).  With `fuel = s.length` this is exactly Python's
`replace` for non-empty `old`. -/
def replaceSubFuel (old rep : Str) : Nat → Str → Str
  | 0, s => s
  | _ + 1, [] => []
  | fuel + 1, c :: rest =>
    if old ≠ [] ∧ old.isPrefixOf (c :: rest) then
      rep ++ replaceSubFuel old rep fuel ((c :: rest).drop old.length)
    else
      c :: replaceSubFuel old rep fuel rest

/-- Python `s.replace(old, rep)` for non-empty `old`. -/
def replaceSub (old rep s : Str) : Str :=
  replaceSubFuel old rep s.length s

/-- First argument of the mangled "smart apostrophes" `.replace` call in the
source: the Python triple-quoted string literal `, "'").replace(`. -/
def apostropheArtifact : Str :=
  [',', ' ', dq, apos, dq, ')', '.', 'r', 'e', 'p', 'l', 'a', 'c', 'e', '(']

/-- The regex substitution `re.sub(r'\s+', ' ', text)`: every maximal run of
whitespace characters becomes a single space.  The flag records whether we
are currently inside a whitespace run. -/
def collapseAux : Bool → Str → Str
  | _, [] => []
  | inRun, c :: rest =>
    if pyIsSpace c then
      if inRun then collapseAux true rest
      else ' ' :: collapseAux true rest
    else
      c :: collapseAux false rest

/-- Model of `normalize_text` from admin_handler.py: empty in, empty out; otherwise
strip, lower-case, replace newlines/tabs with spaces, apply the (mangled)
punctuation replacements, map em/en dashes to hyphens and the ellipsis glyph
to three periods, strip all trailing periods, and collapse whitespace runs. -/
def normalize_text (text : Str) : Str :=
  if text = [] then []
  else
    let t1 := pyStrip text
    let t2 := t1.map lowerChar
    let t3 := replaceSub ['\n'] [' '] t2
    let t4 := replaceSub ['\t'] [' '] t3
    let t5 := replaceSub [dq] [dq] t4
    let t6 := replaceSub [dq] [dq] t5
    let t7 := replaceSub apostropheArtifact [apos] t6
    let t8 := replaceSub ['—'] ['-'] t7
    let t9 := replaceSub ['–'] ['-'] t8
    let t10 := replaceSub ['…'] ['.', '.', '.'] t9
    let t11 := pyRstripWhile (fun c => c == '.') t10
    collapseAux false t11

/-- The character-position loop of `calculate_similarity`: the number of
indices at which both strings have the same character. -/
def matchesAt : Str → Str → Nat
  | c :: cs, d :: ds => (if c = d then 1 else 0) + matchesAt cs ds
  | _, _ => 0

/-- Model of `calculate_similarity` from admin_handler.py.  `mkRat a b` models the
Python float division `a / b` exactly. -/
def calculate_similarity (text1 text2 : Str) : ℚ :=
  if text1 = [] ∧ text2 = [] then mkRat 1 1
  else if text1 = [] ∨ text2 = [] then mkRat 0 1
  else if ((text1.length : ℤ) - (text2.length : ℤ)).natAbs ≤ 3 then
    let max_length := max text1.length text2.length
    if 0 < max_length then mkRat (matchesAt text1 text2) max_length else mkRat 0 1
  else
    let words1 := text1.splitOn ' '
    let words2 := text2.splitOn ' '
    let common_words := words1.countP (fun w => words2.contains w && decide (2 < w.length))
    let total_words := words1.length + words2.length
    if 0 < total_words then mkRat (2 * common_words) total_words else mkRat 0 1

/-- Python's `f-string` formatting `.2f` for the nonnegative scores produced
by `calculate_similarity`: the value rounded to hundredths (ties upward),
printed with exactly two digits after the decimal point. -/
def format2 (x : ℚ) : Str :=
  let cents := (200 * x.num.toNat + x.den) / (2 * x.den)
  (Nat.repr (cents / 100)).data ++
    '.' :: (if cents % 100 < 10 then '0' :: (Nat.repr (cents % 100)).data
            else (Nat.repr (cents % 100)).data)

/-- Model of `are_similar_quotes` from admin_handler.py: normalize all four inputs and
test the four match rules in priority order. -/
def are_similar_quotes (quote1_text quote1_author quote2_text quote2_author : Str) :
    Bool × Option Str :=
  let normalized_quote1 := normalize_text quote1_text
  let normalized_quote2 := normalize_text quote2_text
  let normalized_author1 := normalize_text quote1_author
  let normalized_author2 := normalize_text quote2_author
  if normalized_quote1 = normalized_quote2 ∧ normalized_author1 = normalized_author2 then
    (true, some "exact_match".data)
  else
    let quote_similarity := calculate_similarity normalized_quote1 normalized_quote2
    if mkRat 9 10 ≤ quote_similarity ∧ normalized_author1 = normalized_author2 then
      (true, some ("similar_quote_same_author_".data ++ format2 quote_similarity))
    else
      let author_similarity := calculate_similarity normalized_author1 normalized_author2
      if normalized_quote1 = normalized_quote2 ∧ mkRat 17 20 ≤ author_similarity then
        (true, some ("same_quote_similar_author_".data ++ format2 author_similarity))
      else if mkRat 19 20 ≤ quote_similarity ∧ mkRat 9 10 ≤ author_similarity then
        (true, some ("both_similar_q".data ++ format2 quote_similarity ++
          "_a".data ++ format2 author_similarity))
      else
        (false, none)

/-- Modelled from the spec (§3, §4.3), for the refinement claim C4: the four
match rules as a guard/reason list in the stated priority order, first match
wins. -/
def classifierRules (q1 a1 q2 a2 : Str) : List (Bool × Str) :=
  let nq1 := normalize_text q1
  let nq2 := normalize_text q2
  let na1 := normalize_text a1
  let na2 := normalize_text a2
  let qs := calculate_similarity nq1 nq2
  let as' := calculate_similarity na1 na2
  [ (nq1 == nq2 && na1 == na2, "exact_match".data),
    (decide (mkRat 9 10 ≤ qs) && (na1 == na2),
      "similar_quote_same_author_".data ++ format2 qs),
    ((nq1 == nq2) && decide (mkRat 17 20 ≤ as'),
      "same_quote_similar_author_".data ++ format2 as'),
    (decide (mkRat 19 20 ≤ qs) && decide (mkRat 9 10 ≤ as'),
      "both_similar_q".data ++ format2 qs ++ "_a".data ++ format2 as') ]

/-- Modelled from the spec (§4.3): evaluate the rules in priority order and
return the first that fires with its annotated reason, `(false, none)` if
none fire. -/
def classifySpec (q1 a1 q2 a2 : Str) : Bool × Option Str :=
  match (classifierRules q1 a1 q2 a2).find? (fun rule => rule.1) with
  | some rule => (true, some rule.2)
  | none => (false, none)

/-- A DynamoDB item as seen by the duplicate scans: `id` is always present,
`quote`, `author` and `created_at` may be missing. -/
structure Record where
  id : Str
  quote : Option Str
  author : Option Str
  created_at : Option Str
deriving DecidableEq

/-- One entry of the `duplicates_found` accumulator. -/
structure DupEntry where
  id : Str
  quote : Str
  author : Str
  created_at : Option Str
  match_reason : Option Str
deriving DecidableEq

/-- The body of the scan loop in `handle_create_quote`: skip items missing
the `quote` or `author` key, append an entry when `are_similar_quotes`
fires.  `created_at` uses `item.get('created_at', '')`. -/
def createDuplicateEntry (quote_text author : Str) (item : Record) : Option DupEntry :=
  match item.quote, item.author with
  | some q, some a =>
    let r := are_similar_quotes quote_text author q a
    if r.1 then
      some { id := item.id, quote := q, author := a,
             created_at := some (item.created_at.getD []), match_reason := r.2 }
    else none
  | _, _ => none

/-- The body of the scan loop in `handle_check_duplicate`: skip items whose
id starts with `TAGS_` or whose `quote` is missing or empty
(`item.get('id', '').startswith('TAGS_') or not item.get('quote')`); a
missing `author` is read as the empty string.  `created_at` uses
`item.get('created_at')`, which may be absent. -/
def checkDuplicateEntry (quote_text author : Str) (item : Record) : Option DupEntry :=
  if "TAGS_".data.isPrefixOf item.id || item.quote.getD [] == [] then none
  else
    let existing_quote := item.quote.getD []
    let existing_author := item.author.getD []
    let r := are_similar_quotes quote_text author existing_quote existing_author
    if r.1 then
      some { id := item.id, quote := existing_quote, author := existing_author,
             created_at := item.created_at, match_reason := r.2 }
    else none

/-- The inner `for item in items` loop of both scans, folding the entry
function over one page of the paginated scan. -/
def scanQuotesPage (entry : Record → Option DupEntry)
    (acc : List DupEntry) (page : List Record) : List DupEntry :=
  page.foldl (fun acc item =>
    match entry item with
    | some e => acc ++ [e]
    | none => acc) acc

/-- The outer `while True` pagination loop of both scans: drain every page,
accumulating matches. -/
def scanQuotesPages (entry : Record → Option DupEntry) :
    List (List Record) → List DupEntry → List DupEntry
  | [], acc => acc
  | page :: rest, acc => scanQuotesPages entry rest (scanQuotesPage entry acc page)

/-- The response fields of the two handlers that the claims are about. -/
structure ApiResponse where
  status : Nat
  is_duplicate : Bool := false
  duplicate_count : Nat := 0
  duplicates : List DupEntry := []
deriving DecidableEq

/-- Model of `handle_create_quote` from admin_handler.py, restricted to the
duplicate-check-and-create part the claims are about: validate, scan for
duplicates (a scan failure is caught and creation proceeds), block with 409
when duplicates were found, otherwise put the new quote item into the store.
The second component is the table contents after the call. -/
def handle_create_quote (body_quote body_author new_id timestamp : Str)
    (scan : Except Str (List (List Record))) (store : List Record) :
    ApiResponse × List Record :=
  if pyStrip body_quote = [] ∨ pyStrip body_author = [] then
    ({ status := 400 }, store)
  else
    let quote_text := pyStrip body_quote
    let author := pyStrip body_author
    let quote_item : Record :=
      { id := new_id, quote := some quote_text, author := some author,
        created_at := some timestamp }
    match scan with
    | .error _ =>
      ({ status := 201 }, store ++ [quote_item])
    | .ok pages =>
      let duplicates_found := scanQuotesPages (createDuplicateEntry quote_text author) pages []
      if duplicates_found ≠ [] then
        ({ status := 409, is_duplicate := true,
           duplicate_count := duplicates_found.length,
           duplicates := duplicates_found.take 5 }, store)
      else
        ({ status := 201 }, store ++ [quote_item])

/-- Model of `handle_check_duplicate` from admin_handler.py: validate, scan for
duplicates (a scan failure is a hard 500 error), and report.  It never
writes to the store. -/
def handle_check_duplicate (body_quote body_author : Str)
    (scan : Except Str (List (List Record))) : ApiResponse :=
  let quote_text := pyStrip body_quote
  let author := pyStrip body_author
  if quote_text = [] ∨ author = [] then { status := 400 }
  else
    match scan with
    | .error _ => { status := 500 }
    | .ok pages =>
      let duplicates_found := scanQuotesPages (checkDuplicateEntry quote_text author) pages []
      if duplicates_found ≠ [] then
        { status := 200, is_duplicate := true,
          duplicate_count := duplicates_found.length,
          duplicates := duplicates_found.take 5 }
      else
        { status := 200, is_duplicate := false, duplicate_count := 0, duplicates := [] }

/-- Every whitespace character in the string is a plain space. -/
def onlySingleSpaceWs (l : Str) : Bool :=
  l.all (fun c => !pyIsSpace c || c == ' ')

/-- No two adjacent spaces anywhere in the string. -/
def noTwoSpaces : Str → Bool
  | c :: d :: rest => !(c == ' ' && d == ' ') && noTwoSpaces (d :: rest)
  | _ => true

/-- The string does not start with a whitespace character. -/
def headNotSpace : Str → Bool
  | [] => true
  | c :: _ => !pyIsSpace c

theorem headNotSpace_iff {l : Str} :
    headNotSpace l = true ↔ ∀ c, l.head? = some c → pyIsSpace c = false := by
  cases l <;> simp [headNotSpace]

theorem mem_of_getLast?_eq {l : Str} {c : Char} (h : l.getLast? = some c) : c ∈ l := by
  have h' : l.reverse.head? = some c := by rw [List.head?_reverse]; exact h
  cases hr : l.reverse with
  | nil => rw [hr] at h'; simp at h'
  | cons a t =>
    rw [hr] at h'
    simp only [List.head?_cons, Option.some.injEq] at h'
    subst h'
    have : a ∈ l.reverse := by rw [hr]; exact List.mem_cons_self a t
    exact List.mem_reverse.mp this

theorem getLast?_cons_ne {a : Char} {l : Str} (h : l ≠ []) :
    (a :: l).getLast? = l.getLast? := by
  cases l with
  | nil => exact absurd rfl h
  | cons x xs => exact List.getLast?_cons_cons

theorem head?_dropWhile_not (p : Char → Bool) :
    ∀ (l : Str) (c : Char), (l.dropWhile p).head? = some c → p c = false := by
  intro l
  induction l with
  | nil => intro c h; simp [List.dropWhile] at h
  | cons d rest ih =>
    intro c h
    rw [List.dropWhile_cons] at h
    by_cases hd : p d = true
    · rw [if_pos hd] at h; exact ih c h
    · rw [if_neg hd] at h
      simp only [List.head?_cons, Option.some.injEq] at h
      rw [← h]; exact Bool.not_eq_true _ ▸ (by simpa using hd)

theorem dropWhile_eq_self_of_head (p : Char → Bool) {l : Str}
    (h : ∀ c, l.head? = some c → p c = false) : l.dropWhile p = l := by
  cases l with
  | nil => rfl
  | cons d rest =>
    rw [List.dropWhile_cons, if_neg]
    simp [h d rfl]

theorem dropWhile_sfx (p : Char → Bool) : ∀ (l : Str), l.dropWhile p <:+ l := by
  intro l
  induction l with
  | nil => exact List.suffix_refl _
  | cons d rest ih =>
    rw [List.dropWhile_cons]
    by_cases hd : p d = true
    · rw [if_pos hd]; exact ih.trans (List.suffix_cons d rest)
    · rw [if_neg hd]

theorem pyRstripWhile_isPre (p : Char → Bool) (l : Str) : pyRstripWhile p l <+: l := by
  rw [pyRstripWhile]
  rw [← List.reverse_suffix, List.reverse_reverse]
  exact dropWhile_sfx p l.reverse

theorem pyRstripWhile_getLast {p : Char → Bool} {l : Str} {c : Char}
    (h : (pyRstripWhile p l).getLast? = some c) : p c = false := by
  rw [pyRstripWhile, List.getLast?_reverse] at h
  exact head?_dropWhile_not p l.reverse c h

theorem rstrip_eq_self (p : Char → Bool) {l : Str}
    (h : ∀ c, l.getLast? = some c → p c = false) : pyRstripWhile p l = l := by
  rw [pyRstripWhile, dropWhile_eq_self_of_head p, List.reverse_reverse]
  intro c hc
  rw [List.head?_reverse] at hc
  exact h c hc

theorem pyStrip_eq_self {l : Str}
    (h1 : ∀ c, l.head? = some c → pyIsSpace c = false)
    (h2 : ∀ c, l.getLast? = some c → pyIsSpace c = false) : pyStrip l = l := by
  rw [pyStrip, dropWhile_eq_self_of_head pyIsSpace h1, rstrip_eq_self pyIsSpace h2]

theorem head?_of_isPre {l1 l2 : Str} (h : l1 <+: l2) {c : Char}
    (hc : l1.head? = some c) : l2.head? = some c := by
  obtain ⟨t, rfl⟩ := h
  cases l1 with
  | nil => simp at hc
  | cons a r => simpa using hc

theorem mem_pyRstripWhile {p : Char → Bool} {l : Str} {c : Char}
    (h : c ∈ pyRstripWhile p l) : c ∈ l :=
  (pyRstripWhile_isPre p l).sublist.mem h

theorem headNotSpace_pyStrip (l : Str) : headNotSpace (pyStrip l) = true := by
  rw [headNotSpace_iff]
  intro c hc
  have hc' : (List.dropWhile pyIsSpace l).head? = some c := by
    cases hh : (pyStrip l) with
    | nil => rw [hh] at hc; simp at hc
    | cons a r =>
      rw [hh] at hc
      simp only [List.head?_cons, Option.some.injEq] at hc
      exact head?_of_isPre (pyRstripWhile_isPre pyIsSpace _)
        (by show (pyStrip l).head? = some c; rw [hh, hc]; rfl)
  exact head?_dropWhile_not pyIsSpace l c hc'

theorem headNotSpace_pyRstripWhile {p : Char → Bool} {l : Str}
    (h : headNotSpace l = true) : headNotSpace (pyRstripWhile p l) = true := by
  rw [headNotSpace_iff]
  intro c hc
  have : l.head? = some c := by
    cases hh : (pyRstripWhile p l) with
    | nil => rw [hh] at hc; simp at hc
    | cons a r =>
      rw [hh] at hc
      simp only [List.head?_cons, Option.some.injEq] at hc
      exact head?_of_isPre (pyRstripWhile_isPre p l) (by rw [hh, hc]; rfl)
  exact (headNotSpace_iff.mp h) c this

theorem mem_replaceSubFuel {old rep : Str} {c : Char} :
    ∀ {n : Nat} {l : Str}, c ∈ replaceSubFuel old rep n l → c ∈ rep ∨ c ∈ l := by
  intro n
  induction n with
  | zero => intro l h; exact Or.inr h
  | succ n ih =>
    intro l h
    cases l with
    | nil => simp [replaceSubFuel] at h
    | cons d rest =>
      rw [replaceSubFuel] at h
      by_cases hc : old ≠ [] ∧ old.isPrefixOf (d :: rest)
      · rw [if_pos hc] at h
        rcases List.mem_append.mp h with h | h
        · exact Or.inl h
        · rcases ih h with h | h
          · exact Or.inl h
          · exact Or.inr (List.mem_of_mem_drop h)
      · rw [if_neg hc] at h
        rcases List.mem_cons.mp h with rfl | h
        · exact Or.inr (List.mem_cons_self _ _)
        · rcases ih h with h | h
          · exact Or.inl h
          · exact Or.inr (List.mem_cons_of_mem _ h)

theorem replaceSubFuel_of_not_infix {old rep : Str} :
    ∀ {n : Nat} {l : Str}, ¬ old <:+: l → replaceSubFuel old rep n l = l := by
  intro n
  induction n with
  | zero => intro l _; rfl
  | succ n ih =>
    intro l hinf
    cases l with
    | nil => rfl
    | cons d rest =>
      rw [replaceSubFuel, if_neg, ih]
      · intro h
        exact hinf (h.trans (List.suffix_cons d rest).isInfix)
      · rintro ⟨-, hpre⟩
        exact hinf (List.isPrefixOf_iff_prefix.mp hpre).isInfix

theorem replaceSubChar_not_mem {c0 : Char} {rep : Str} {n : Nat} {l : Str}
    (h : c0 ∉ l) : replaceSubFuel [c0] rep n l = l := by
  apply replaceSubFuel_of_not_infix
  intro hinf
  exact h (hinf.sublist.mem (List.mem_cons_self c0 []))

theorem replaceSubFuel_id (c0 : Char) :
    ∀ (n : Nat) (l : Str), replaceSubFuel [c0] [c0] n l = l := by
  intro n
  induction n with
  | zero => intro l; rfl
  | succ n ih =>
    intro l
    cases l with
    | nil => rfl
    | cons d rest =>
      rw [replaceSubFuel]
      by_cases hc : c0 = d
      · subst hc
        rw [if_pos]
        · simp [ih]
        · exact ⟨by simp, by simp [List.isPrefixOf]⟩
      · rw [if_neg, ih]
        rintro ⟨-, hpre⟩
        simp [List.isPrefixOf] at hpre
        exact hc hpre

theorem not_mem_replaceSubChar {c0 : Char} {rep : Str} (hrep : c0 ∉ rep) :
    ∀ {n : Nat} {l : Str}, l.length ≤ n → c0 ∉ replaceSubFuel [c0] rep n l := by
  intro n
  induction n with
  | zero =>
    intro l hl
    rw [List.length_eq_zero.mp (Nat.le_zero.mp hl)]
    simp [replaceSubFuel]
  | succ n ih =>
    intro l hl
    cases l with
    | nil => simp [replaceSubFuel]
    | cons d rest =>
      rw [replaceSubFuel]
      by_cases hc : ([c0] : Str) ≠ [] ∧ ([c0] : Str).isPrefixOf (d :: rest)
      · rw [if_pos hc]
        intro hmem
        rcases List.mem_append.mp hmem with h | h
        · exact hrep h
        · have : rest.length ≤ n := Nat.le_of_succ_le_succ (by simpa using hl)
          exact ih this (by simpa using h)
      · rw [if_neg hc]
        intro hmem
        rcases List.mem_cons.mp hmem with rfl | h
        · exact hc ⟨by simp, by simp [List.isPrefixOf]⟩
        · have : rest.length ≤ n := Nat.le_of_succ_le_succ (by simpa using hl)
          exact ih this h

theorem headNotSpace_replaceWsChar {c0 : Char} {rep : Str} (hc0 : pyIsSpace c0 = true)
    {n : Nat} {l : Str} (h : headNotSpace l = true) :
    headNotSpace (replaceSubFuel [c0] rep n l) = true := by
  cases n with
  | zero => exact h
  | succ n =>
    cases l with
    | nil => rfl
    | cons d rest =>
      rw [replaceSubFuel, if_neg]
      · exact h
      · rintro ⟨-, hpre⟩
        simp [List.isPrefixOf] at hpre
        rw [headNotSpace, ← hpre, hc0] at h
        simp at h

theorem headNotSpace_replaceRep {old rep : Str} {r0 : Char} {rrest : Str}
    (hrep : rep = r0 :: rrest) (hr0 : pyIsSpace r0 = false)
    {n : Nat} {l : Str} (h : headNotSpace l = true) :
    headNotSpace (replaceSubFuel old rep n l) = true := by
  cases n with
  | zero => exact h
  | succ n =>
    cases l with
    | nil => rfl
    | cons d rest =>
      rw [replaceSubFuel]
      by_cases hc : old ≠ [] ∧ old.isPrefixOf (d :: rest)
      · rw [if_pos hc, hrep]
        simp [headNotSpace, hr0]
      · rw [if_neg hc]
        exact h

theorem collapseAux_true_head :
    ∀ (l : Str) (c : Char), (collapseAux true l).head? = some c → pyIsSpace c = false := by
  intro l
  induction l with
  | nil => intro c h; simp [collapseAux] at h
  | cons d rest ih =>
    intro c h
    rw [collapseAux] at h
    by_cases hd : pyIsSpace d = true
    · rw [if_pos hd, if_pos rfl] at h
      exact ih c h
    · rw [if_neg hd] at h
      simp only [List.head?_cons, Option.some.injEq] at h
      rw [← h]
      simpa using hd

theorem collapseAux_only (l : Str) : ∀ (b : Bool), onlySingleSpaceWs (collapseAux b l) = true := by
  induction l with
  | nil => intro b; rfl
  | cons d rest ih =>
    intro b
    rw [collapseAux]
    by_cases hd : pyIsSpace d = true
    · rw [if_pos hd]
      cases b with
      | true => rw [if_pos rfl]; exact ih true
      | false =>
        rw [if_neg (by simp)]
        have := ih true
        simp only [onlySingleSpaceWs, List.all_cons] at *
        simp [this]
    · rw [if_neg hd]
      have := ih false
      simp only [onlySingleSpaceWs, List.all_cons] at *
      simp [this, hd]

theorem beq_space_of_not_space {x : Char} (h : pyIsSpace x = false) : (x == ' ') = false := by
  cases hEq : x == ' ' with
  | false => rfl
  | true =>
    have hx : x = ' ' := by simpa using hEq
    rw [hx] at h
    exact absurd h (by decide)

theorem collapseAux_noTwo (l : Str) : ∀ (b : Bool), noTwoSpaces (collapseAux b l) = true := by
  induction l with
  | nil => intro b; rfl
  | cons d rest ih =>
    intro b
    rw [collapseAux]
    by_cases hd : pyIsSpace d = true
    · rw [if_pos hd]
      cases b with
      | true => rw [if_pos rfl]; exact ih true
      | false =>
        rw [if_neg (by simp)]
        cases hX : collapseAux true rest with
        | nil => rfl
        | cons x xs =>
          have hx : pyIsSpace x = false := collapseAux_true_head rest x (by rw [hX]; rfl)
          have hxs : (x == ' ') = false := beq_space_of_not_space hx
          have hrest := ih true
          rw [hX] at hrest
          simp [noTwoSpaces, hxs, hrest]
    · rw [if_neg hd]
      have hds : (d == ' ') = false := beq_space_of_not_space (by simpa using hd)
      cases hX : collapseAux false rest with
      | nil => rfl
      | cons x xs =>
        have hrest := ih false
        rw [hX] at hrest
        simp [noTwoSpaces, hds, hrest]

theorem collapseAux_eq_self :
    ∀ (l : Str) (b : Bool), onlySingleSpaceWs l = true → noTwoSpaces l = true →
      (b = true → ∀ c, l.head? = some c → c ≠ ' ') → collapseAux b l = l := by
  intro l
  induction l with
  | nil => intro b _ _ _; rfl
  | cons d rest ih =>
    intro b h1 h2 h3
    rw [collapseAux]
    by_cases hd : pyIsSpace d = true
    · have hds : d = ' ' := by
        simp only [onlySingleSpaceWs, List.all_cons, Bool.and_eq_true] at h1
        rcases h1 with ⟨h1d, -⟩
        rw [hd] at h1d
        simpa using h1d
      rw [if_pos hd]
      cases b with
      | true => exact absurd hds (h3 rfl d rfl)
      | false =>
        rw [if_neg (by simp)]
        subst hds
        congr 1
        apply ih true
        · simp only [onlySingleSpaceWs, List.all_cons, Bool.and_eq_true] at h1
          exact h1.2
        · cases rest with
          | nil => rfl
          | cons x xs =>
            simp only [noTwoSpaces, Bool.and_eq_true] at h2
            exact h2.2
        · intro _ c hc
          cases rest with
          | nil => simp at hc
          | cons x xs =>
            simp only [List.head?_cons, Option.some.injEq] at hc
            subst hc
            simp only [noTwoSpaces, Bool.and_eq_true] at h2
            rcases h2 with ⟨h2a, -⟩
            intro hxs
            rw [hxs] at h2a
            simp at h2a
    · rw [if_neg hd]
      congr 1
      apply ih false
      · simp only [onlySingleSpaceWs, List.all_cons, Bool.and_eq_true] at h1
        exact h1.2
      · cases rest with
        | nil => rfl
        | cons x xs =>
          simp only [noTwoSpaces, Bool.and_eq_true] at h2
          exact h2.2
      · intro hb; cases hb

theorem collapseAux_false_ne_nil {l : Str} (h : l ≠ []) : collapseAux false l ≠ [] := by
  cases l with
  | nil => exact absurd rfl h
  | cons d rest =>
    rw [collapseAux]
    by_cases hd : pyIsSpace d = true
    · rw [if_pos hd, if_neg (by simp)]; simp
    · rw [if_neg hd]; simp

theorem collapseAux_getLast :
    ∀ (l : Str) (b : Bool) (c : Char), (collapseAux b l).getLast? = some c →
      c = ' ' ∨ l.getLast? = some c := by
  intro l
  induction l with
  | nil => intro b c h; simp [collapseAux] at h
  | cons d rest ih =>
    intro b c h
    rw [collapseAux] at h
    by_cases hd : pyIsSpace d = true
    · rw [if_pos hd] at h
      cases b with
      | true =>
        rw [if_pos rfl] at h
        rcases ih true c h with h' | h'
        · exact Or.inl h'
        · have hne : rest ≠ [] := by
            intro hr; rw [hr] at h'; simp at h'
          right; rw [getLast?_cons_ne hne]; exact h'
      | false =>
        rw [if_neg (by simp)] at h
        by_cases hX : collapseAux true rest = []
        · rw [hX] at h
          simp only [List.getLast?_singleton, Option.some.injEq] at h
          exact Or.inl h.symm
        · rw [getLast?_cons_ne hX] at h
          rcases ih true c h with h' | h'
          · exact Or.inl h'
          · have hne : rest ≠ [] := by
              intro hr; rw [hr] at h'; simp at h'
            right; rw [getLast?_cons_ne hne]; exact h'
    · rw [if_neg hd] at h
      by_cases hre : rest = []
      · subst hre
        simp only [collapseAux, List.getLast?_singleton, Option.some.injEq] at h
        right; simp [h]
      · have hne : collapseAux false rest ≠ [] := collapseAux_false_ne_nil hre
        rw [getLast?_cons_ne hne] at h
        rcases ih false c h with h' | h'
        · exact Or.inl h'
        · right; rw [getLast?_cons_ne hre]; exact h'

theorem headNotSpace_collapseAux {l : Str} (h : headNotSpace l = true) :
    headNotSpace (collapseAux false l) = true := by
  cases l with
  | nil => rfl
  | cons d rest =>
    rw [collapseAux]
    rw [headNotSpace] at h
    rw [if_neg (by simpa using h)]
    exact h

theorem mem_collapseAux :
    ∀ {l : Str} {b : Bool} {c : Char}, c ∈ collapseAux b l → c = ' ' ∨ c ∈ l := by
  intro l
  induction l with
  | nil => intro b c h; simp [collapseAux] at h
  | cons d rest ih =>
    intro b c h
    rw [collapseAux] at h
    by_cases hd : pyIsSpace d = true
    · rw [if_pos hd] at h
      cases b with
      | true =>
        rw [if_pos rfl] at h
        rcases ih h with h' | h'
        · exact Or.inl h'
        · exact Or.inr (List.mem_cons_of_mem _ h')
      | false =>
        rw [if_neg (by simp)] at h
        rcases List.mem_cons.mp h with rfl | h'
        · exact Or.inl rfl
        · rcases ih h' with h'' | h''
          · exact Or.inl h''
          · exact Or.inr (List.mem_cons_of_mem _ h'')
    · rw [if_neg hd] at h
      rcases List.mem_cons.mp h with rfl | h'
      · exact Or.inr (List.mem_cons_self _ _)
      · rcases ih h' with h'' | h''
        · exact Or.inl h''
        · exact Or.inr (List.mem_cons_of_mem _ h'')

theorem lowerChar_lowerChar (c : Char) : lowerChar (lowerChar c) = lowerChar c := by
  by_cases h : 65 ≤ c.toNat ∧ c.toNat ≤ 90
  · have hc : lowerChar c = Char.ofNat (c.toNat + 32) := by rw [lowerChar, if_pos h]
    rw [hc]
    obtain ⟨h1, h2⟩ := h
    generalize c.toNat = k at h1 h2
    interval_cases k <;> decide
  · have hc : lowerChar c = c := by rw [lowerChar, if_neg h]
    rw [hc]
    exact hc

theorem pyIsSpace_lowerChar {c : Char} (h : pyIsSpace c = false) :
    pyIsSpace (lowerChar c) = false := by
  by_cases hcond : 65 ≤ c.toNat ∧ c.toNat ≤ 90
  · have hc : lowerChar c = Char.ofNat (c.toNat + 32) := by rw [lowerChar, if_pos hcond]
    rw [hc]
    obtain ⟨h1, h2⟩ := hcond
    generalize c.toNat = k at h1 h2
    interval_cases k <;> decide
  · have hc : lowerChar c = c := by rw [lowerChar, if_neg hcond]
    rw [hc]
    exact h

theorem map_lowerChar_eq {l : Str} (h : ∀ c ∈ l, lowerChar c = c) :
    l.map lowerChar = l := by
  induction l with
  | nil => rfl
  | cons d rest ih =>
    simp only [List.map_cons]
    rw [h d (List.mem_cons_self d rest), ih (fun c hc => h c (List.mem_cons_of_mem d hc))]

theorem normalize_text_nil : normalize_text [] = [] := rfl

theorem normalize_text_eq (x : Str) (hx : x ≠ []) :
    normalize_text x =
      collapseAux false
        (pyRstripWhile (fun c => c == '.')
          (replaceSub ['…'] ['.', '.', '.']
            (replaceSub ['–'] ['-']
              (replaceSub ['—'] ['-']
                (replaceSub apostropheArtifact [apos]
                  (replaceSub [dq] [dq]
                    (replaceSub [dq] [dq]
                      (replaceSub ['\t'] [' ']
                        (replaceSub ['\n'] [' ']
                          ((pyStrip x).map lowerChar)))))))))) := by
  rw [normalize_text, if_neg hx]

theorem normalize_props (x : Str) :
    onlySingleSpaceWs (normalize_text x) = true ∧ noTwoSpaces (normalize_text x) = true ∧
      headNotSpace (normalize_text x) = true := by
  by_cases hx : x = []
  · subst hx; exact ⟨rfl, rfl, rfl⟩
  · rw [normalize_text_eq x hx]
    refine ⟨collapseAux_only _ _, collapseAux_noTwo _ _, ?_⟩
    apply headNotSpace_collapseAux
    apply headNotSpace_pyRstripWhile
    rw [replaceSub]
    apply headNotSpace_replaceRep rfl (by decide)
    rw [replaceSub]
    apply headNotSpace_replaceRep rfl (by decide)
    rw [replaceSub]
    apply headNotSpace_replaceRep rfl (by decide)
    rw [replaceSub]
    apply headNotSpace_replaceRep rfl (by decide)
    rw [replaceSub]
    apply headNotSpace_replaceRep rfl (by decide)
    rw [replaceSub]
    apply headNotSpace_replaceRep rfl (by decide)
    rw [replaceSub]
    apply headNotSpace_replaceWsChar (by decide)
    rw [replaceSub]
    apply headNotSpace_replaceWsChar (by decide)
    have hs := headNotSpace_pyStrip x
    cases hps : pyStrip x with
    | nil => rfl
    | cons a r =>
      rw [hps] at hs
      rw [List.map_cons, headNotSpace]
      rw [headNotSpace] at hs
      have : pyIsSpace (lowerChar a) = false := pyIsSpace_lowerChar (by simpa using hs)
      simp [this]

theorem mem_replaceSub {old rep : Str} {c : Char} {l : Str}
    (h : c ∈ replaceSub old rep l) : c ∈ rep ∨ c ∈ l := by
  rw [replaceSub] at h
  exact mem_replaceSubFuel h

theorem replaceSub_id (c0 : Char) (l : Str) : replaceSub [c0] [c0] l = l := by
  rw [replaceSub]
  exact replaceSubFuel_id c0 l.length l

theorem replaceSub_of_not_mem {c0 : Char} {rep : Str} {l : Str} (h : c0 ∉ l) :
    replaceSub [c0] rep l = l := by
  rw [replaceSub]
  exact replaceSubChar_not_mem h

theorem replaceSub_of_not_infix {old rep : Str} {l : Str} (h : ¬ old <:+: l) :
    replaceSub old rep l = l := by
  rw [replaceSub]
  exact replaceSubFuel_of_not_infix h

theorem not_mem_replaceSub_self {c0 : Char} {rep : Str} (hrep : c0 ∉ rep) (l : Str) :
    c0 ∉ replaceSub [c0] rep l := by
  rw [replaceSub]
  exact not_mem_replaceSubChar hrep (Nat.le_refl _)

theorem eq_space_of_mem_of_space {l : Str} (hall : onlySingleSpaceWs l = true)
    {c : Char} (hm : c ∈ l) (hs : pyIsSpace c = true) : c = ' ' := by
  simp only [onlySingleSpaceWs, List.all_eq_true] at hall
  have := hall c hm
  rw [hs] at this
  simpa using this

theorem lowerFixed_normalize (x : Str) : ∀ c ∈ normalize_text x, lowerChar c = c := by
  by_cases hx : x = []
  · intro c hc; subst hx; simp [normalize_text_nil] at hc
  · rw [normalize_text_eq x hx]
    intro c hc
    rcases mem_collapseAux hc with rfl | hc
    · decide
    replace hc := mem_pyRstripWhile hc
    rcases mem_replaceSub hc with h | hc
    · have hd : c = '.' := by simpa using h
      subst hd; decide
    rcases mem_replaceSub hc with h | hc
    · simp only [List.mem_singleton] at h; subst h; decide
    rcases mem_replaceSub hc with h | hc
    · simp only [List.mem_singleton] at h; subst h; decide
    rcases mem_replaceSub hc with h | hc
    · simp only [List.mem_singleton] at h; subst h; decide
    rcases mem_replaceSub hc with h | hc
    · simp only [List.mem_singleton] at h; subst h; decide
    rcases mem_replaceSub hc with h | hc
    · simp only [List.mem_singleton] at h; subst h; decide
    rcases mem_replaceSub hc with h | hc
    · simp only [List.mem_singleton] at h; subst h; decide
    rcases mem_replaceSub hc with h | hc
    · simp only [List.mem_singleton] at h; subst h; decide
    rcases List.mem_map.mp hc with ⟨a, -, rfl⟩
    exact lowerChar_lowerChar a

theorem specials_not_mem_normalize (x : Str) :
    '—' ∉ normalize_text x ∧ '–' ∉ normalize_text x ∧ '…' ∉ normalize_text x := by
  by_cases hx : x = []
  · subst hx; rw [normalize_text_nil]; refine ⟨by simp, by simp, by simp⟩
  · rw [normalize_text_eq x hx]
    refine ⟨?_, ?_, ?_⟩
    · intro h
      rcases mem_collapseAux h with h | h
      · exact absurd h (by decide)
      replace h := mem_pyRstripWhile h
      rcases mem_replaceSub h with h | h
      · exact absurd h (by decide)
      rcases mem_replaceSub h with h | h
      · exact absurd h (by decide)
      exact not_mem_replaceSub_self (by decide) _ h
    · intro h
      rcases mem_collapseAux h with h | h
      · exact absurd h (by decide)
      replace h := mem_pyRstripWhile h
      rcases mem_replaceSub h with h | h
      · exact absurd h (by decide)
      exact not_mem_replaceSub_self (by decide) _ h
    · intro h
      rcases mem_collapseAux h with h | h
      · exact absurd h (by decide)
      replace h := mem_pyRstripWhile h
      exact not_mem_replaceSub_self (by decide) _ h

set_option maxHeartbeats 1000000 in
theorem normalize_getLast_not_dot (x : Str) {c : Char}
    (h : (normalize_text x).getLast? = some c) (hc : c ≠ ' ') : (c == '.') = false := by
  by_cases hx : x = []
  · subst hx; rw [normalize_text_nil] at h; simp at h
  · rw [normalize_text_eq x hx] at h
    rcases collapseAux_getLast _ _ _ h with h' | h'
    · exact absurd h' hc
    · exact @pyRstripWhile_getLast (fun c => c == '.') _ _ h'

/-- C1 (counterexample): `normalize` is not idempotent as claimed; on the
input `"a ."` stripping the trailing period exposes a trailing space that a
second normalization removes: `normalize("a .") = "a "` but
`normalize(normalize("a .")) = "a"`. -/
theorem C1_counterexample :
    normalize_text (normalize_text "a .".data) ≠ normalize_text "a .".data := by decide

/-- C1 (amended): `normalize` is idempotent on every input whose normalized
form does not end with a space (the trailing-period strip can expose one) and
does not contain the 15-character artifact literal of the mangled smart
apostrophe replacement. -/
theorem C1_amended_idempotent (x : Str)
    (h1 : (normalize_text x).getLast? ≠ some ' ')
    (h2 : ¬ apostropheArtifact <:+: normalize_text x) :
    normalize_text (normalize_text x) = normalize_text x := by
  obtain ⟨hOnly, hNoTwo, hHead⟩ := normalize_props x
  by_cases hnil : normalize_text x = []
  · rw [hnil]; rfl
  · rw [normalize_text_eq (normalize_text x) hnil]
    have hlast : ∀ c, (normalize_text x).getLast? = some c → pyIsSpace c = false := by
      intro c hc
      have hmem := mem_of_getLast?_eq hc
      cases hsp : pyIsSpace c with
      | false => rfl
      | true =>
        have hceq := eq_space_of_mem_of_space hOnly hmem hsp
        subst hceq
        exact absurd hc h1
    have hstrip : pyStrip (normalize_text x) = normalize_text x :=
      pyStrip_eq_self (headNotSpace_iff.mp hHead) hlast
    have hlower : (normalize_text x).map lowerChar = normalize_text x :=
      map_lowerChar_eq (lowerFixed_normalize x)
    have hnotnl : '\n' ∉ normalize_text x := by
      intro hm
      have := eq_space_of_mem_of_space hOnly hm (by decide)
      exact absurd this (by decide)
    have hnottab : '\t' ∉ normalize_text x := by
      intro hm
      have := eq_space_of_mem_of_space hOnly hm (by decide)
      exact absurd this (by decide)
    obtain ⟨hem, hen, hell⟩ := specials_not_mem_normalize x
    have hrd : pyRstripWhile (fun c => c == '.') (normalize_text x) = normalize_text x := by
      apply rstrip_eq_self
      intro c hc
      by_cases hcs : c = ' '
      · subst hcs; exact absurd hc h1
      · exact normalize_getLast_not_dot x hc hcs
    rw [hstrip, hlower,
        replaceSub_of_not_mem hnotnl,
        replaceSub_of_not_mem hnottab,
        replaceSub_id, replaceSub_id,
        replaceSub_of_not_infix h2,
        replaceSub_of_not_mem hem,
        replaceSub_of_not_mem hen,
        replaceSub_of_not_mem hell,
        hrd]
    exact collapseAux_eq_self _ false hOnly hNoTwo (fun hb => absurd hb (by simp))

/-- C1 (witness): the amended idempotence theorem applied at the concrete
input `"hello world"`. -/
theorem C1_amended_idempotent_witness :
    normalize_text (normalize_text "hello world".data) = normalize_text "hello world".data :=
  C1_amended_idempotent "hello world".data (by decide) (by decide)

/-- C9 (counterexample): the normalized output can end in whitespace:
stripping the trailing periods of `"a .."` exposes a trailing space that the
whitespace collapse does not remove, so `normalize("a ..") = "a "`. -/
theorem C9_counterexample :
    (normalize_text "a ..".data).getLast? = some ' ' ∧ pyIsSpace ' ' = true := by decide

/-- C9 (amended): for every input, the output of `normalize` contains no tab,
no newline and no whitespace other than plain spaces, contains no run of two
or more consecutive spaces, and has no leading whitespace.  (Trailing
whitespace is possible, but by the first two parts it is at most one space.) -/
theorem C9_amended_output_shape (x : Str) :
    onlySingleSpaceWs (normalize_text x) = true ∧ noTwoSpaces (normalize_text x) = true ∧
      headNotSpace (normalize_text x) = true :=
  normalize_props x

/-- C10: the non-empty input `"..."` normalizes to the empty string, and a
candidate whose author is `"..."` is classified exactly like one whose author
is the empty string. -/
theorem C10_dots_normalize_empty :
    normalize_text "...".data = [] ∧ "...".data ≠ [] ∧
      ∀ q1 q2 a2 : Str,
        are_similar_quotes q1 "...".data q2 a2 = are_similar_quotes q1 [] q2 a2 := by
  refine ⟨by decide, by decide, ?_⟩
  intro q1 q2 a2
  have h : normalize_text "...".data = normalize_text [] := by decide
  simp only [are_similar_quotes]
  rw [h]

theorem matchesAt_le_left : ∀ (a b : Str), matchesAt a b ≤ a.length := by
  intro a
  induction a with
  | nil => intro b; cases b <;> simp [matchesAt]
  | cons c cs ih =>
    intro b
    cases b with
    | nil => simp [matchesAt]
    | cons d ds =>
      rw [matchesAt]
      have := ih ds
      by_cases hcd : c = d <;> simp [hcd] <;> omega

theorem matchesAt_comm : ∀ (a b : Str), matchesAt a b = matchesAt b a := by
  intro a
  induction a with
  | nil => intro b; cases b <;> simp [matchesAt]
  | cons c cs ih =>
    intro b
    cases b with
    | nil => simp [matchesAt]
    | cons d ds =>
      rw [matchesAt, matchesAt, ih ds]
      by_cases hcd : c = d
      · subst hcd; simp
      · rw [if_neg hcd, if_neg (fun h => hcd h.symm)]

theorem contains_iff_mem_str (l : List Str) (w : Str) : l.contains w = true ↔ w ∈ l := by
  simp [List.contains, List.elem_iff]

theorem countP_common_comm {w1 w2 : List Str} (h1 : w1.Nodup) (h2 : w2.Nodup) :
    w1.countP (fun w => w2.contains w && decide (2 < w.length)) =
      w2.countP (fun w => w1.contains w && decide (2 < w.length)) := by
  rw [List.countP_eq_length_filter, List.countP_eq_length_filter]
  apply List.Perm.length_eq
  apply (List.perm_ext_iff_of_nodup (h1.filter _) (h2.filter _)).mpr
  intro w
  simp only [List.mem_filter, Bool.and_eq_true, decide_eq_true_eq, contains_iff_mem_str]
  tauto

/-- C3 (counterexample): `calculate_similarity` is not symmetric: with
repeated words, `sim("abc abc", "abc defghijk") = 1` but
`sim("abc defghijk", "abc abc") = 0.5`, because the word-overlap count
iterates over the first argument's words only. -/
theorem C3_counterexample :
    calculate_similarity "abc abc".data "abc defghijk".data ≠
      calculate_similarity "abc defghijk".data "abc abc".data := by decide

/-- C3 (amended): `calculate_similarity` is symmetric whenever neither
argument's space-split word list contains a repeated word (the
character-position branch is symmetric unconditionally; only repeated words
in the word-overlap branch break symmetry). -/
theorem C3_amended_symm (a b : Str)
    (ha : (a.splitOn ' ').Nodup) (hb : (b.splitOn ' ').Nodup) :
    calculate_similarity a b = calculate_similarity b a := by
  simp only [calculate_similarity]
  by_cases h1 : a = [] ∧ b = []
  · rw [if_pos h1, if_pos (show b = [] ∧ a = [] from ⟨h1.2, h1.1⟩)]
  · rw [if_neg h1, if_neg (show ¬(b = [] ∧ a = []) from fun h => h1 ⟨h.2, h.1⟩)]
    by_cases h2 : a = [] ∨ b = []
    · rw [if_pos h2, if_pos (show b = [] ∨ a = [] from Or.symm h2)]
    · rw [if_neg h2, if_neg (show ¬(b = [] ∨ a = []) from fun h => h2 (Or.symm h))]
      have hAbs : ((b.length : ℤ) - (a.length : ℤ)).natAbs =
          ((a.length : ℤ) - (b.length : ℤ)).natAbs := by omega
      by_cases h3 : ((a.length : ℤ) - (b.length : ℤ)).natAbs ≤ 3
      · rw [if_pos h3,
          if_pos (show ((b.length : ℤ) - (a.length : ℤ)).natAbs ≤ 3 by rw [hAbs]; exact h3)]
        rw [show matchesAt b a = matchesAt a b from (matchesAt_comm a b).symm,
            Nat.max_comm b.length a.length]
      · rw [if_neg h3,
          if_neg (show ¬((b.length : ℤ) - (a.length : ℤ)).natAbs ≤ 3 by rw [hAbs]; exact h3)]
        rw [countP_common_comm hb ha, Nat.add_comm (b.splitOn ' ').length]

/-- C3 (witness): symmetry applied at the concrete pair
`("hello world", "xy")`, whose word lists are duplicate-free. -/
theorem C3_amended_symm_witness :
    calculate_similarity "hello world".data "xy".data =
      calculate_similarity "xy".data "hello world".data :=
  C3_amended_symm "hello world".data "xy".data (by decide) (by decide)

/-- C2 (counterexample): `calculate_similarity` can exceed `1.0`: repeated
words are double counted, so `sim("abc abc abc", "abc") = 1.5`. -/
theorem C2_counterexample :
    calculate_similarity "abc abc abc".data "abc".data = mkRat 3 2 ∧
      ¬ calculate_similarity "abc abc abc".data "abc".data ≤ 1 := by
  constructor
  · decide
  · have h : calculate_similarity "abc abc abc".data "abc".data = mkRat 3 2 := by decide
    rw [h, Rat.mkRat_eq_div]
    norm_num

/-- C2 (amended): for every pair of strings the similarity score is
nonnegative and (strictly) below `2.0`; the claimed upper bound `1.0` fails
only through word double counting in the word-overlap branch. -/
theorem C2_amended_bounds (a b : Str) :
    0 ≤ calculate_similarity a b ∧ calculate_similarity a b < 2 := by
  simp only [calculate_similarity]
  by_cases h1 : a = [] ∧ b = []
  · rw [if_pos h1, Rat.mkRat_eq_div]; norm_num
  · rw [if_neg h1]
    by_cases h2 : a = [] ∨ b = []
    · rw [if_pos h2, Rat.mkRat_eq_div]; norm_num
    · rw [if_neg h2]
      by_cases h3 : ((a.length : ℤ) - (b.length : ℤ)).natAbs ≤ 3
      · rw [if_pos h3]
        by_cases h4 : 0 < max a.length b.length
        · rw [if_pos h4, Rat.mkRat_eq_div]
          have hm : matchesAt a b ≤ max a.length b.length :=
            le_trans (matchesAt_le_left a b) (Nat.le_max_left _ _)
          constructor
          · positivity
          · rw [div_lt_iff₀ (by exact_mod_cast h4)]
            push_cast
            have hmq : (matchesAt a b : ℚ) ≤ (max a.length b.length : ℚ) := by
              exact_mod_cast hm
            have hMq : (0 : ℚ) < (max a.length b.length : ℚ) := by exact_mod_cast h4
            linarith
        · rw [if_neg h4, Rat.mkRat_eq_div]; norm_num
      · rw [if_neg h3]
        by_cases h5 : 0 < (a.splitOn ' ').length + (b.splitOn ' ').length
        · rw [if_pos h5, Rat.mkRat_eq_div]
          set c := (a.splitOn ' ').countP
            (fun w => (b.splitOn ' ').contains w && decide (2 < w.length)) with hc
          by_cases hc0 : c = 0
          · rw [hc0]; norm_num
          · have hcw1 : c ≤ (a.splitOn ' ').length := List.countP_le_length _
            have hex : ∃ w ∈ a.splitOn ' ',
                ((b.splitOn ' ').contains w && decide (2 < w.length)) = true :=
              List.countP_pos_iff.mp (Nat.pos_of_ne_zero hc0)
            obtain ⟨w, hw, hwp⟩ := hex
            have hwb : w ∈ b.splitOn ' ' := by
              simp only [Bool.and_eq_true, decide_eq_true_eq, contains_iff_mem_str] at hwp
              exact hwp.1
            have hb1 : 0 < (b.splitOn ' ').length := List.length_pos_of_mem hwb
            have hlt : c < (a.splitOn ' ').length + (b.splitOn ' ').length := by omega
            constructor
            · positivity
            · rw [div_lt_iff₀ (by exact_mod_cast h5)]
              push_cast
              have hltq : (c : ℚ) <
                  ((a.splitOn ' ').length : ℚ) + ((b.splitOn ' ').length : ℚ) := by
                exact_mod_cast hlt
              linarith
        · rw [if_neg h5, Rat.mkRat_eq_div]; norm_num

/-- C4: `are_similar_quotes` implements exactly the spec's rule list: the
four rules are evaluated in priority order (exact match, similar quote with
same author, same quote with similar author, both similar), the first rule
that fires is returned with its score(s) formatted to two decimal places in
the reason string, and `(false, none)` is returned when no rule fires. -/
theorem C4_classifier_refines_spec (q1 a1 q2 a2 : Str) :
    are_similar_quotes q1 a1 q2 a2 = classifySpec q1 a1 q2 a2 := by
  simp only [are_similar_quotes, classifySpec, classifierRules]
  by_cases h1 : normalize_text q1 = normalize_text q2 ∧ normalize_text a1 = normalize_text a2
  · rw [if_pos h1, List.find?_cons_of_pos _ (by simp [h1.1, h1.2])]
  · rw [if_neg h1, List.find?_cons_of_neg _
      (by simp only [Bool.and_eq_true, beq_iff_eq]; exact h1)]
    by_cases h2 : mkRat 9 10 ≤ calculate_similarity (normalize_text q1) (normalize_text q2) ∧
        normalize_text a1 = normalize_text a2
    · rw [if_pos h2, List.find?_cons_of_pos _
        (by simp only [Bool.and_eq_true, beq_iff_eq, decide_eq_true_eq]; exact h2)]
    · rw [if_neg h2, List.find?_cons_of_neg _
        (by simp only [Bool.and_eq_true, beq_iff_eq, decide_eq_true_eq]; exact h2)]
      by_cases h3 : normalize_text q1 = normalize_text q2 ∧
          mkRat 17 20 ≤ calculate_similarity (normalize_text a1) (normalize_text a2)
      · rw [if_pos h3, List.find?_cons_of_pos _
          (by simp only [Bool.and_eq_true, beq_iff_eq, decide_eq_true_eq]; exact h3)]
      · rw [if_neg h3, List.find?_cons_of_neg _
          (by simp only [Bool.and_eq_true, beq_iff_eq, decide_eq_true_eq]; exact h3)]
        by_cases h4 :
            mkRat 19 20 ≤ calculate_similarity (normalize_text q1) (normalize_text q2) ∧
            mkRat 9 10 ≤ calculate_similarity (normalize_text a1) (normalize_text a2)
        · rw [if_pos h4, List.find?_cons_of_pos _
            (by simp only [Bool.and_eq_true, decide_eq_true_eq]; exact h4)]
        · rw [if_neg h4, List.find?_cons_of_neg _
            (by simp only [Bool.and_eq_true, decide_eq_true_eq]; exact h4)]
          rfl

theorem scanQuotesPage_eq (e : Record → Option DupEntry) (acc : List DupEntry)
    (page : List Record) : scanQuotesPage e acc page = acc ++ page.filterMap e := by
  induction page generalizing acc with
  | nil => simp [scanQuotesPage]
  | cons hd tl ih =>
    rw [scanQuotesPage, List.foldl_cons]
    cases he : e hd with
    | none =>
      rw [show (List.foldl (fun acc item => match e item with
            | some e => acc ++ [e]
            | none => acc) acc tl) = scanQuotesPage e acc tl from rfl, ih]
      simp [List.filterMap_cons, he]
    | some v =>
      rw [show (List.foldl (fun acc item => match e item with
            | some e => acc ++ [e]
            | none => acc) (acc ++ [v]) tl) = scanQuotesPage e (acc ++ [v]) tl from rfl, ih]
      simp [List.filterMap_cons, he]

theorem scanQuotesPages_eq (e : Record → Option DupEntry) (pages : List (List Record))
    (acc : List DupEntry) : scanQuotesPages e pages acc = acc ++ pages.flatten.filterMap e := by
  induction pages generalizing acc with
  | nil => simp [scanQuotesPages]
  | cons p ps ih =>
    rw [scanQuotesPages, ih, scanQuotesPage_eq]
    simp [List.filterMap_append]

/-- C5 (counterexample): the creation-path scan does not exclude records by
the metadata sentinel id: a record with id `TAGS_METADATA` that carries
`quote` and `author` fields is compared and reported as a duplicate. -/
theorem C5_counterexample :
    scanQuotesPages (createDuplicateEntry "be yourself".data "oscar wilde".data)
      [[⟨"TAGS_METADATA".data, some "be yourself".data, some "oscar wilde".data, none⟩]] [] =
    [⟨"TAGS_METADATA".data, "be yourself".data, "oscar wilde".data,
      some [], some "exact_match".data⟩] := by decide

/-- C5 (amended): each scan has its own exclusion rule.  The creation path
skips exactly the records missing the `quote` key or the `author` key (no id
check); the check path skips exactly the records whose id starts with
`TAGS_` or whose `quote` is missing or empty (no author check — a record
missing only `author` is compared with the empty author). -/
theorem C5_amended_exclusions (q a : Str) (r : Record) :
    ((r.quote = none ∨ r.author = none) → createDuplicateEntry q a r = none) ∧
    (("TAGS_".data.isPrefixOf r.id = true ∨ r.quote = none ∨ r.quote = some []) →
      checkDuplicateEntry q a r = none) := by
  constructor
  · rintro (hq | ha)
    · simp [createDuplicateEntry, hq]
    · cases hq : r.quote <;> simp [createDuplicateEntry, hq, ha]
  · intro h
    rw [checkDuplicateEntry, if_pos]
    rcases h with h | h | h
    · simp [h]
    · simp [h]
    · simp [h]

/-- C5 (witness): the amended exclusion rules applied to a record with no
quote/author fields (creation path) and to a sentinel-id record (check
path). -/
theorem C5_amended_exclusions_witness :
    createDuplicateEntry [] [] ⟨"x".data, none, none, none⟩ = none ∧
      checkDuplicateEntry [] []
        ⟨"TAGS_METADATA".data, some "q".data, some "a".data, none⟩ = none :=
  ⟨(C5_amended_exclusions [] [] ⟨"x".data, none, none, none⟩).1 (Or.inl rfl),
   (C5_amended_exclusions [] []
      ⟨"TAGS_METADATA".data, some "q".data, some "a".data, none⟩).2 (Or.inl (by decide))⟩

/-- C6: both duplicate scans accumulate every match over the fully drained
pages with no early exit, in scan-encounter order (the scan loop equals a
`filterMap` over the concatenated pages); the check response lists the first
5 matches and reports the true total as `duplicate_count`, and so does the
409 response of the creation path whenever it finds any duplicate. -/
theorem C6_exhaustive_accumulation (bq ba new_id ts : Str) (pages : List (List Record))
    (store : List Record) (hq : pyStrip bq ≠ []) (ha : pyStrip ba ≠ []) :
    scanQuotesPages (createDuplicateEntry (pyStrip bq) (pyStrip ba)) pages [] =
      pages.flatten.filterMap (createDuplicateEntry (pyStrip bq) (pyStrip ba)) ∧
    scanQuotesPages (checkDuplicateEntry (pyStrip bq) (pyStrip ba)) pages [] =
      pages.flatten.filterMap (checkDuplicateEntry (pyStrip bq) (pyStrip ba)) ∧
    (handle_check_duplicate bq ba (.ok pages)).duplicates =
      (pages.flatten.filterMap (checkDuplicateEntry (pyStrip bq) (pyStrip ba))).take 5 ∧
    (handle_check_duplicate bq ba (.ok pages)).duplicate_count =
      (pages.flatten.filterMap (checkDuplicateEntry (pyStrip bq) (pyStrip ba))).length ∧
    (pages.flatten.filterMap (createDuplicateEntry (pyStrip bq) (pyStrip ba)) ≠ [] →
      (handle_create_quote bq ba new_id ts (.ok pages) store).1.duplicates =
        (pages.flatten.filterMap (createDuplicateEntry (pyStrip bq) (pyStrip ba))).take 5 ∧
      (handle_create_quote bq ba new_id ts (.ok pages) store).1.duplicate_count =
        (pages.flatten.filterMap (createDuplicateEntry (pyStrip bq) (pyStrip ba))).length) := by
  have hval : ¬(pyStrip bq = [] ∨ pyStrip ba = []) := by
    rintro (h | h)
    · exact hq h
    · exact ha h
  have hscC : scanQuotesPages (createDuplicateEntry (pyStrip bq) (pyStrip ba)) pages [] =
      pages.flatten.filterMap (createDuplicateEntry (pyStrip bq) (pyStrip ba)) := by
    rw [scanQuotesPages_eq]; simp
  have hscK : scanQuotesPages (checkDuplicateEntry (pyStrip bq) (pyStrip ba)) pages [] =
      pages.flatten.filterMap (checkDuplicateEntry (pyStrip bq) (pyStrip ba)) := by
    rw [scanQuotesPages_eq]; simp
  refine ⟨hscC, hscK, ?_, ?_, ?_⟩
  · simp only [handle_check_duplicate]
    rw [if_neg hval, hscK]
    by_cases hne : pages.flatten.filterMap (checkDuplicateEntry (pyStrip bq) (pyStrip ba)) = []
    · rw [if_neg (not_not_intro hne), hne]
      rfl
    · rw [if_pos hne]
  · simp only [handle_check_duplicate]
    rw [if_neg hval, hscK]
    by_cases hne : pages.flatten.filterMap (checkDuplicateEntry (pyStrip bq) (pyStrip ba)) = []
    · rw [if_neg (not_not_intro hne), hne]
      rfl
    · rw [if_pos hne]
  · intro hne
    simp only [handle_create_quote]
    rw [if_neg hval, hscC, if_pos hne]
    exact ⟨rfl, rfl⟩

/-- C6 (witness): the accumulation/response facts at one concrete scan with
one matching record. -/
theorem C6_exhaustive_accumulation_witness :
    scanQuotesPages (createDuplicateEntry (pyStrip "be yourself".data)
        (pyStrip "oscar wilde".data))
      [[⟨"q1".data, some "be yourself".data, some "oscar wilde".data, none⟩]] [] =
      ([[⟨"q1".data, some "be yourself".data, some "oscar wilde".data,
          none⟩]] : List (List Record)).flatten.filterMap
        (createDuplicateEntry (pyStrip "be yourself".data) (pyStrip "oscar wilde".data)) ∧
    scanQuotesPages (checkDuplicateEntry (pyStrip "be yourself".data)
        (pyStrip "oscar wilde".data))
      [[⟨"q1".data, some "be yourself".data, some "oscar wilde".data, none⟩]] [] =
      ([[⟨"q1".data, some "be yourself".data, some "oscar wilde".data,
          none⟩]] : List (List Record)).flatten.filterMap
        (checkDuplicateEntry (pyStrip "be yourself".data) (pyStrip "oscar wilde".data)) ∧
    (handle_check_duplicate "be yourself".data "oscar wilde".data
        (.ok [[⟨"q1".data, some "be yourself".data, some "oscar wilde".data,
          none⟩]])).duplicates =
      (([[⟨"q1".data, some "be yourself".data, some "oscar wilde".data,
          none⟩]] : List (List Record)).flatten.filterMap
        (checkDuplicateEntry (pyStrip "be yourself".data)
          (pyStrip "oscar wilde".data))).take 5 ∧
    (handle_check_duplicate "be yourself".data "oscar wilde".data
        (.ok [[⟨"q1".data, some "be yourself".data, some "oscar wilde".data,
          none⟩]])).duplicate_count =
      (([[⟨"q1".data, some "be yourself".data, some "oscar wilde".data,
          none⟩]] : List (List Record)).flatten.filterMap
        (checkDuplicateEntry (pyStrip "be yourself".data)
          (pyStrip "oscar wilde".data))).length ∧
    (([[⟨"q1".data, some "be yourself".data, some "oscar wilde".data,
          none⟩]] : List (List Record)).flatten.filterMap
        (createDuplicateEntry (pyStrip "be yourself".data)
          (pyStrip "oscar wilde".data)) ≠ [] →
      (handle_create_quote "be yourself".data "oscar wilde".data "id9".data "t0".data
          (.ok [[⟨"q1".data, some "be yourself".data, some "oscar wilde".data, none⟩]])
          []).1.duplicates =
        (([[⟨"q1".data, some "be yourself".data, some "oscar wilde".data,
            none⟩]] : List (List Record)).flatten.filterMap
          (createDuplicateEntry (pyStrip "be yourself".data)
            (pyStrip "oscar wilde".data))).take 5 ∧
      (handle_create_quote "be yourself".data "oscar wilde".data "id9".data "t0".data
          (.ok [[⟨"q1".data, some "be yourself".data, some "oscar wilde".data, none⟩]])
          []).1.duplicate_count =
        (([[⟨"q1".data, some "be yourself".data, some "oscar wilde".data,
            none⟩]] : List (List Record)).flatten.filterMap
          (createDuplicateEntry (pyStrip "be yourself".data)
            (pyStrip "oscar wilde".data))).length) :=
  C6_exhaustive_accumulation "be yourself".data "oscar wilde".data "id9".data "t0".data
    [[⟨"q1".data, some "be yourself".data, some "oscar wilde".data, none⟩]] []
    (by decide) (by decide)

/-- C7: on a storage scan failure, the creation path proceeds as if zero
duplicates were found and creates the quote (fail-open: status 201 and the
new item is appended to the store), while the explicit check path returns a
hard 500 error and no verdict. -/
theorem C7_scan_failure_asymmetry (bq ba new_id ts e : Str) (store : List Record)
    (hq : pyStrip bq ≠ []) (ha : pyStrip ba ≠ []) :
    (handle_create_quote bq ba new_id ts (.error e) store).1.status = 201 ∧
    (handle_create_quote bq ba new_id ts (.error e) store).2 =
      store ++ [{ id := new_id, quote := some (pyStrip bq),
                  author := some (pyStrip ba), created_at := some ts }] ∧
    (handle_check_duplicate bq ba (.error e)).status = 500 := by
  have hval : ¬(pyStrip bq = [] ∨ pyStrip ba = []) := by
    rintro (h | h)
    · exact hq h
    · exact ha h
  refine ⟨?_, ?_, ?_⟩
  · simp only [handle_create_quote]
    rw [if_neg hval]
  · simp only [handle_create_quote]
    rw [if_neg hval]
  · simp only [handle_check_duplicate]
    rw [if_neg hval]

/-- C7 (witness): the fail-open/fail-closed asymmetry at a concrete scan
failure. -/
theorem C7_scan_failure_asymmetry_witness :
    (handle_create_quote "be yourself".data "oscar wilde".data "id9".data "t0".data
        (.error "boom".data) []).1.status = 201 ∧
    (handle_create_quote "be yourself".data "oscar wilde".data "id9".data "t0".data
        (.error "boom".data) []).2 =
      [] ++ [{ id := "id9".data, quote := some (pyStrip "be yourself".data),
               author := some (pyStrip "oscar wilde".data), created_at := some "t0".data }] ∧
    (handle_check_duplicate "be yourself".data "oscar wilde".data
        (.error "boom".data)).status = 500 :=
  C7_scan_failure_asymmetry "be yourself".data "oscar wilde".data "id9".data "t0".data
    "boom".data [] (by decide) (by decide)

/-- C8: when the creation-path scan finds at least one duplicate, creation is
blocked with a 409 conflict and the store is unchanged (the new quote is not
written); the explicit check path never blocks — it answers 200 whether or
not duplicates exist. -/
theorem C8_conflict_blocks_creation (bq ba new_id ts : Str) (pages : List (List Record))
    (store : List Record) (hq : pyStrip bq ≠ []) (ha : pyStrip ba ≠ []) :
    (scanQuotesPages (createDuplicateEntry (pyStrip bq) (pyStrip ba)) pages [] ≠ [] →
      (handle_create_quote bq ba new_id ts (.ok pages) store).1.status = 409 ∧
      (handle_create_quote bq ba new_id ts (.ok pages) store).2 = store) ∧
    (handle_check_duplicate bq ba (.ok pages)).status = 200 := by
  have hval : ¬(pyStrip bq = [] ∨ pyStrip ba = []) := by
    rintro (h | h)
    · exact hq h
    · exact ha h
  constructor
  · intro hne
    simp only [handle_create_quote]
    rw [if_neg hval, if_pos hne]
    exact ⟨rfl, rfl⟩
  · simp only [handle_check_duplicate]
    rw [if_neg hval]
    by_cases hne : scanQuotesPages (checkDuplicateEntry (pyStrip bq) (pyStrip ba)) pages [] = []
    · rw [if_neg (not_not_intro hne)]
    · rw [if_pos hne]

/-- C8 (witness): blocking and reporting at a concrete store containing an
exact duplicate of the candidate. -/
theorem C8_conflict_blocks_creation_witness :
    (scanQuotesPages (createDuplicateEntry (pyStrip "be yourself".data)
        (pyStrip "oscar wilde".data))
      [[⟨"q1".data, some "be yourself".data, some "oscar wilde".data, none⟩]] [] ≠ [] →
      (handle_create_quote "be yourself".data "oscar wilde".data "id9".data "t0".data
          (.ok [[⟨"q1".data, some "be yourself".data, some "oscar wilde".data, none⟩]])
          []).1.status = 409 ∧
      (handle_create_quote "be yourself".data "oscar wilde".data "id9".data "t0".data
          (.ok [[⟨"q1".data, some "be yourself".data, some "oscar wilde".data, none⟩]])
          []).2 = []) ∧
    (handle_check_duplicate "be yourself".data "oscar wilde".data
        (.ok [[⟨"q1".data, some "be yourself".data, some "oscar wilde".data,
          none⟩]])).status = 200 :=
  C8_conflict_blocks_creation "be yourself".data "oscar wilde".data "id9".data "t0".data
    [[⟨"q1".data, some "be yourself".data, some "oscar wilde".data, none⟩]] []
    (by decide) (by decide)
